import Mathlib

/-!
Shallow embedding of the multi-attendee availability engine implemented in
src/google_calendar.py: the functions get_calendar_timezone,
infer_timezone_from_events, get_workweek_for_timezone,
find_working_hours_overlap and find_meeting_slots, together with the
per-day window computation, slot scanning and the day loop that
find_meeting_slots performs inline.

Modelling conventions:
* Instants are minutes since the epoch (1970-01-01 00:00, a Thursday), as
  Int.  A calendar date is its day index, the instant divided by 1440
  with floor division, matching datetime.date of a naive datetime.
* Python date.weekday has 0 = Monday; day 0 is a Thursday, hence
  weekday d = (d + 3) mod 7.
* The zoneinfo library is modelled as a fixed offset per timezone name:
  Env.off tz = some o means ZoneInfo(tz) succeeds and the zone lies o
  minutes east of UTC (conversion local -> UTC subtracts o); none means
  the ZoneInfo constructor raises, which the source catches per attendee.
* External collaborators (calendar metadata, event listing, the batched
  free/busy query) are fields of Env returning Except Unit values; the
  error case models a raised transport error.  authenticate_calendar is
  modelled as always succeeding.  Busy intervals arrive already parsed as
  minute pairs.
* datetime.time(h, m) raises ValueError outside 0 <= h <= 23 and
  0 <= m <= 59; mkTimeMinutes reproduces exactly this check.
* The "HH:MM" preferred-time strings are modelled by the already split
  integer pair; a malformed string raises inside the same try block as an
  out-of-range pair, so both are represented by a pair that fails the
  time() range check.
* datetime.now() is Env.now; all naive datetimes share one timeline.
-/

deriving instance DecidableEq for Except

/-- Python date.weekday for a day index (0 = Monday ... 6 = Sunday). -/
def weekday (d : Int) : Int := (d + 3) % 7

/-- datetime.time(h, m) as minutes after midnight; error models ValueError. -/
def mkTimeMinutes (h m : Int) : Except Unit Int :=
  if 0 ≤ h ∧ h ≤ 23 ∧ 0 ≤ m ∧ m ≤ 59 then .ok (h * 60 + m) else .error ()

/-- Python truthiness filter for an optional timezone string: None and the
empty string are falsy. -/
def truthy : Option String → Option String
  | none => none
  | some s => if s = "" then none else some s

/-- The start or end object of a Google event: whether the dateTime key is
present, and the timeZone annotation if the timeZone key is present. -/
structure GTime where
  hasDateTime : Bool
  timeZone : Option String
deriving DecidableEq

/-- A Google event as inspected by infer_timezone_from_events. -/
structure GEvent where
  tstart : GTime
  tend : GTime
deriving DecidableEq

/-- The collaborator environment of one find_meeting_slots call. -/
structure Env where
  now : Int
  declaredTz : String → Except Unit (Option String)
  eventsOf : String → Except Unit (List GEvent)
  freebusy : List String → Except Unit (List (String × List (Int × Int)))
  off : String → Option Int

/-- The keyword arguments of find_meeting_slots. -/
structure Args where
  attendees : List String
  duration_minutes : Int
  date_start : Option Int
  date_end : Option Int
  preferred_time_start : Option (Int × Int)
  preferred_time_end : Option (Int × Int)
  earliest_hour : Int
  latest_hour : Int
  timezone : String
  max_suggestions : Int
  weekdays_only : Bool
  allowed_weekdays : Option (List Int)
  use_attendee_timezones : Bool

/-- One collaborator interaction performed by find_meeting_slots before the
day loop starts. -/
inductive CollabCall
  | getTz (cal : String)
  | inferTz (cal : String)
  | freebusyQuery
deriving DecidableEq

/-- The observable outcome of find_meeting_slots: a formatted slot list, the
no-slots message carrying the days-searched figure, or the error string
produced by the top-level exception handlers. -/
inductive FmsResult
  | slots (l : List (Int × Int))
  | noSlots (daysSearched : Int)
  | error
deriving DecidableEq

/-- get_calendar_timezone: returns the declared timeZone property, or None
when the lookup raises (both except clauses return None). -/
def get_calendar_timezone (env : Env) (cal : String) : Option String :=
  match env.declaredTz cal with
  | .error _ => none
  | .ok t => t

/-- timezone_counts[tz] = timezone_counts.get(tz, 0) + 1 on an insertion
ordered association list, as a Python dict behaves. -/
def bump : List (String × Nat) → String → List (String × Nat)
  | [], tz => [(tz, 1)]
  | (t, n) :: rest, tz =>
    if t = tz then (t, n + 1) :: rest else (t, n) :: bump rest tz

/-- The per-event counting step of infer_timezone_from_events: count the
start annotation when start has dateTime and timeZone; count the end
annotation when end has dateTime and timeZone and start has no timeZone. -/
def countEvent (counts : List (String × Nat)) (e : GEvent) : List (String × Nat) :=
  let c1 := match e.tstart.hasDateTime, e.tstart.timeZone with
    | true, some tz => bump counts tz
    | _, _ => counts
  match e.tend.hasDateTime, e.tend.timeZone, e.tstart.timeZone with
  | true, some tz, none => bump c1 tz
  | _, _, _ => c1

/-- The timezone_counts dict built over the scanned events, in first-seen
key order. -/
def countTimezones (events : List GEvent) : List (String × Nat) :=
  events.foldl countEvent []

/-- One comparison step of Python max(..., key=lambda x: x[1]): the current
best is replaced only on a strictly greater count, so ties keep the
earlier element. -/
def maxStep (best q : String × Nat) : String × Nat :=
  if q.2 > best.2 then q else best

/-- Python max(items, key=lambda x: x[1]) over the counts list; none on an
empty dict. -/
def maxByCount : List (String × Nat) → Option (String × Nat)
  | [] => none
  | p :: rest => some (rest.foldl maxStep p)

/-- infer_timezone_from_events: list recent events, count timezone
annotations, return the most frequent; None on a raised lookup, on no
events, or on no timezone information. -/
def infer_timezone_from_events (env : Env) (cal : String) : Option String :=
  match env.eventsOf cal with
  | .error _ => none
  | .ok events =>
    if events = [] then none
    else
      match maxByCount (countTimezones events) with
      | some p => some p.1
      | none => none

/-- The timezone resolution chain of find_meeting_slots (lines 840-855):
declared property if truthy, else inference from events if truthy, else
the UTC default. -/
def resolveTz (env : Env) (cal : String) : String :=
  match truthy (get_calendar_timezone env cal) with
  | some t => t
  | none =>
    match truthy (infer_timezone_from_events env cal) with
    | some t => t
    | none => "UTC"

/-- The attendee_timezones dict of find_meeting_slots, keyed by
["primary"] + attendees in order. -/
def attendeeTimezones (env : Env) (a : Args) : List (String × String) :=
  let cals := "primary" :: a.attendees
  if a.use_attendee_timezones then
    cals.map (fun c => (c, resolveTz env c))
  else
    cals.map (fun c => (c, a.timezone))

/-- get_workweek_for_timezone: Sunday-Thursday for the listed Middle-East
zones, Monday-Friday otherwise (0 = Monday ... 6 = Sunday). -/
def get_workweek_for_timezone (tz : String) : List Int :=
  if tz = "Asia/Jerusalem" ∨ tz = "Asia/Tel_Aviv" then [6, 0, 1, 2, 3]
  else if tz = "Asia/Riyadh" ∨ tz = "Asia/Dubai" ∨ tz = "Asia/Kuwait" ∨ tz = "Asia/Amman" then
    [6, 0, 1, 2, 3]
  else [0, 1, 2, 3, 4]

/-- The modelled UTC offset of the timezone of an attendee entry, with 0
for an unconstructible zone (used only where the hypothesis rules the
default out). -/
def offOf (env : Env) (q : String × String) : Int := (env.off q.2).getD 0

/-- The try body of find_working_hours_overlap for one attendee: the local
working interval converted to UTC; none models a raise inside the block
(ZoneInfo on the attendee zone, or an invalid hour in time). -/
def fwho_try (env : Env) (d h1 h2 : Int) (q : String × String) : Option (Int × Int) :=
  match env.off q.2, mkTimeMinutes h1 0, mkTimeMinutes h2 0 with
  | some o, .ok t1, .ok t2 => some (1440 * d + t1 - o, 1440 * d + t2 - o)
  | _, _, _ => none

/-- The naive fallback interval of the except branch, built with plain
combine, which re-raises on an invalid hour. -/
def naiveTry (d h1 h2 : Int) : Except Unit (Int × Int) :=
  match mkTimeMinutes h1 0, mkTimeMinutes h2 0 with
  | .ok t1, .ok t2 => .ok (1440 * d + t1, 1440 * d + t2)
  | _, _ => .error ()

/-- The attendee loop of find_working_hours_overlap.  Per attendee: the
workweek check returns None for the whole day; then the try block converts
the local working interval to UTC and intersects it, and any raise falls
back to keeping the state, or to the naive UTC interval when the state is
still empty - where an invalid hour raises out of the function. -/
def fwho_loop (env : Env) (d h1 h2 : Int) :
    Option (Int × Int) → List (String × String) → Except Unit (Option (Int × Int))
  | st, [] => .ok st
  | st, q :: rest =>
    if weekday d ∈ get_workweek_for_timezone q.2 then
      match fwho_try env d h1 h2 q, st with
      | some iv, none => fwho_loop env d h1 h2 (some iv) rest
      | some iv, some (s, e) =>
        fwho_loop env d h1 h2 (some (max s iv.1, min e iv.2)) rest
      | none, some w => fwho_loop env d h1 h2 (some w) rest
      | none, none =>
        match naiveTry d h1 h2 with
        | .ok iv => fwho_loop env d h1 h2 (some iv) rest
        | .error u => .error u
    else .ok none

/-- find_working_hours_overlap: run the attendee loop from an empty state
and keep the intersection only when start is strictly before end. -/
def find_working_hours_overlap (env : Env) (att : List (String × String))
    (d h1 h2 : Int) : Except Unit (Option (Int × Int)) :=
  match fwho_loop env d h1 h2 none att with
  | .error u => .error u
  | .ok none => .ok none
  | .ok (some (s, e)) => .ok (if s < e then some (s, e) else none)

/-- Python dict.get with a default, on an association list in insertion
order. -/
def lookupD (l : List (String × String)) (k dflt : String) : String :=
  match l.find? (fun p => p.1 = k) with
  | some p => p.2
  | none => dflt

/-- The try block of the preferred-window branch (lines 922-944): build the
preferred local range in the primary timezone and convert it to UTC; none
models any raise inside the block (ZoneInfo on the primary zone, or an
invalid parsed time). -/
def prefWindowTry (env : Env) (a : Args) (att : List (String × String)) (d : Int) :
    Option (Int × Int) :=
  match env.off (lookupD att "primary" "UTC") with
  | none => none
  | some offP =>
    let sp := match a.preferred_time_start with
      | some p => p
      | none => (a.earliest_hour, 0)
    let ep := match a.preferred_time_end with
      | some p => p
      | none => (a.latest_hour, 0)
    match mkTimeMinutes sp.1 sp.2, mkTimeMinutes ep.1 ep.2 with
    | .ok ts, .ok te => some (1440 * d + ts - offP, 1440 * d + te - offP)
    | _, _ => none

/-- The three day-skip filters of lines 895-918, in source order: the
allowed_weekdays override (a continue only when the list is truthy and the
weekday is absent), the per-attendee workweek check when timezone
detection and weekdays_only are both on, and the plain weekend check
otherwise.  The three continue statements have no side effects, so their
sequence is their disjunction. -/
def daySkipped (a : Args) (att : List (String × String)) (wd : Int) : Bool :=
  (match a.allowed_weekdays with
   | some l => decide (l ≠ []) && decide (wd ∉ l)
   | none => false) ||
  (a.use_attendee_timezones && a.weekdays_only &&
    att.any (fun q => decide (wd ∉ get_workweek_for_timezone q.2))) ||
  (!a.use_attendee_timezones && a.weekdays_only &&
    (decide (wd = 5) || decide (wd = 6)))

/-- The working-hours window used both in the no-preference branch and as
the fallback of the preferred branch on a raise: the attendee overlap when
timezone detection is on, else the fixed local-hour window whose combine
raises on an invalid hour. -/
def fallbackWindow (env : Env) (a : Args) (att : List (String × String)) (d : Int) :
    Except Unit (Option (Int × Int)) :=
  if a.use_attendee_timezones then
    find_working_hours_overlap env att d a.earliest_hour a.latest_hour
  else
    match mkTimeMinutes a.earliest_hour 0, mkTimeMinutes a.latest_hour 0 with
    | .ok t1, .ok t2 => .ok (some (1440 * d + t1, 1440 * d + t2))
    | _, _ => .error ()

/-- The per-day window determination of find_meeting_slots (lines 895-986):
the day filters, then the preferred window (with its fallback on a raise)
or the working-hours overlap or the fixed hours.  ok none means the day is
skipped; error means a raise that aborts the whole call. -/
def dayWindow (env : Env) (a : Args) (att : List (String × String)) (d : Int) :
    Except Unit (Option (Int × Int)) :=
  if daySkipped a att (weekday d) then .ok none
  else if a.preferred_time_start.isSome ∨ a.preferred_time_end.isSome then
    match prefWindowTry env a att d with
    | some (ds, de) => if ds < de then .ok (some (ds, de)) else .ok none
    | none => fallbackWindow env a att d
  else fallbackWindow env a att d

/-- The free test of lines 1006-1023: the candidate slot [s, e) is free iff
for every calendar in the free/busy answer and every busy block [b1, b2),
not (b1 < e and s < b2). -/
def isFreeSlot (ab : List (String × List (Int × Int))) (s e : Int) : Bool :=
  ab.all (fun cb => cb.2.all (fun b => decide (e ≤ b.1) || decide (b.2 ≤ s)))

/-- The slot while loop (lines 999-1029), made structural on a fuel that
the caller picks large enough: while current < day_end and the suggestion
cap is not reached, test [current, current+duration), append it when free,
and advance by the fixed 30 minute step. -/
def scanSlotsAux (ab : List (String × List (Int × Int))) (dur ms de : Int) :
    Nat → Int → List (Int × Int) → List (Int × Int)
  | 0, _, acc => acc
  | fuel + 1, cur, acc =>
    if cur < de ∧ (acc.length : Int) < ms then
      if cur + dur > de then acc
      else
        scanSlotsAux ab dur ms de fuel (cur + 30)
          (if isFreeSlot ab cur (cur + dur) then acc ++ [(cur, cur + dur)] else acc)
    else acc

/-- The scan start of lines 988-996: the window start, advanced on the
current calendar date when it lies before now by rounding now up to the
next 30 minute slot; the minute replacement keeps the hour, and the hour
increment raises ValueError when the hour is 23. -/
def initPosition (now nowDay d ds : Int) : Except Unit Int :=
  if d = nowDay ∧ ds < now then
    let m := now % 60
    let mNew := ((m / 30 + 1) * 30) % 60
    let c := now - m + mNew
    if mNew = 0 then
      if (c / 60) % 24 = 23 then .error () else .ok (c + 60)
    else .ok c
  else .ok ds

/-- One day of the day loop: compute the window, position the scan start,
and run the slot scan, threading the accumulated slot list. -/
def processDay (env : Env) (a : Args) (att : List (String × String))
    (ab : List (String × List (Int × Int))) (d : Int) (acc : List (Int × Int)) :
    Except Unit (List (Int × Int)) :=
  match dayWindow env a att d with
  | .error u => .error u
  | .ok none => .ok acc
  | .ok (some (ds, de)) =>
    match initPosition env.now (env.now / 1440) d ds with
    | .error u => .error u
    | .ok c =>
      .ok (scanSlotsAux ab a.duration_minutes a.max_suggestions de
        ((de - c).toNat / 30 + 1) c acc)

/-- The date loop of lines 894-1032, structural on a fuel the caller picks
to cover the whole date range: while the date is within range and the
suggestion cap is not reached, process the day and move to the next one. -/
def dayLoopAux (env : Env) (a : Args) (att : List (String × String))
    (ab : List (String × List (Int × Int))) (endDay : Int) :
    Nat → Int → List (Int × Int) → Except Unit (List (Int × Int))
  | 0, _, acc => .ok acc
  | fuel + 1, d, acc =>
    if d ≤ endDay ∧ (acc.length : Int) < a.max_suggestions then
      match processDay env a att ab d acc with
      | .error u => .error u
      | .ok acc2 => dayLoopAux env a att ab endDay fuel (d + 1) acc2
    else .ok acc

/-- start_date: the parsed date_start at midnight, or now. -/
def startDt (env : Env) (a : Args) : Int :=
  match a.date_start with
  | some d => 1440 * d
  | none => env.now

/-- end_date: the parsed date_end at midnight, or seven days past start. -/
def endDt (env : Env) (a : Args) : Int :=
  match a.date_end with
  | some d => 1440 * d
  | none => startDt env a + 7 * 1440

/-- find_meeting_slots: resolve timezones, run the single free/busy query,
walk the date range accumulating free slots, and format the outcome.  A
raised free/busy query or a raise inside the loop reaches the top-level
handlers and yields the error message. -/
def find_meeting_slots (env : Env) (a : Args) : FmsResult :=
  let sDt := startDt env a
  let eDt := endDt env a
  let att := attendeeTimezones env a
  match env.freebusy ("primary" :: a.attendees) with
  | .error _ => .error
  | .ok ab =>
    let startDay := sDt / 1440
    let endDay := eDt / 1440
    match dayLoopAux env a att ab endDay ((endDay - startDay).toNat + 1) startDay [] with
    | .error _ => .error
    | .ok slots =>
      if slots = [] then .noSlots ((eDt - sDt) / 1440)
      else .slots slots

/-- The sequence of collaborator interactions find_meeting_slots performs
before and including the free/busy query, mirroring lines 840-870: one
metadata lookup per calendar (with the event inference only when the
declared property is falsy) when timezone detection is on, then the single
batched free/busy query. -/
def fmsCalls (env : Env) (a : Args) : List CollabCall :=
  let cals := "primary" :: a.attendees
  (if a.use_attendee_timezones then
    (cals.map (fun c =>
      CollabCall.getTz c ::
        (match truthy (get_calendar_timezone env c) with
         | some _ => []
         | none => [CollabCall.inferTz c]))).flatten
   else []) ++ [CollabCall.freebusyQuery]

/-- Modelled from the spec: the working-window intersection formula as the
claim states it - result start is the max of all attendee UTC starts,
result end is the min of all attendee UTC ends, and no window when start
is not strictly before end.  Used only to compare
find_working_hours_overlap against the specification text. -/
def spec_working_window (env : Env) (p : String × String)
    (rest : List (String × String)) (d h1 h2 : Int) : Option (Int × Int) :=
  let ss := rest.foldl (fun m q => max m (1440 * d + h1 * 60 - offOf env q))
    (1440 * d + h1 * 60 - offOf env p)
  let ee := rest.foldl (fun m q => min m (1440 * d + h2 * 60 - offOf env q))
    (1440 * d + h2 * 60 - offOf env p)
  if ss < ee then some (ss, ee) else none

/-- First accepted slot of a day outcome, for stating concrete facts about
one processed day. -/
def headOk : Except Unit (List (Int × Int)) → Option (Int × Int)
  | .ok l => l.head?
  | .error _ => none

/-- An event whose start and end both carry the given timezone. -/
def evWith (tz : String) : GEvent :=
  { tstart := { hasDateTime := true, timeZone := some tz }
    tend := { hasDateTime := true, timeZone := some tz } }

/-!
Concrete environments and requests used to instantiate the theorems.  Day
20300 has weekday 3 (Thursday), day 20298 has weekday 1 (Tuesday); now is
placed on day 20290 except where a claim needs the current date inside the
search range.
-/

/-- Environment with one attendee whose calendar holds a single busy block
09:00-09:30 UTC on day 20300. -/
def envC1 : Env :=
  { now := 1440 * 20290
    declaredTz := fun _ => .ok none
    eventsOf := fun _ => .ok []
    freebusy := fun _ => .ok [("primary", []), ("a@x", [(29232540, 29232570)])]
    off := fun _ => some 0 }

/-- Request for day 20300 only, fixed 9-17 UTC hours, up to 3 suggestions. -/
def argsC1 : Args :=
  { attendees := ["a@x"], duration_minutes := 30
    date_start := some 20300, date_end := some 20300
    preferred_time_start := none, preferred_time_end := none
    earliest_hour := 9, latest_hour := 17, timezone := "UTC"
    max_suggestions := 3, weekdays_only := false, allowed_weekdays := none
    use_attendee_timezones := false }

/-- Environment for the reversed-date-range request. -/
def envC2 : Env :=
  { now := 1440 * 20290
    declaredTz := fun _ => .ok none
    eventsOf := fun _ => .ok []
    freebusy := fun _ => .ok [("primary", [])]
    off := fun _ => some 0 }

/-- Request whose date_end lies two days before date_start. -/
def argsC2 : Args :=
  { attendees := [], duration_minutes := 30
    date_start := some 20302, date_end := some 20300
    preferred_time_start := none, preferred_time_end := none
    earliest_hour := 7, latest_hour := 20, timezone := "UTC"
    max_suggestions := 10, weekdays_only := true, allowed_weekdays := none
    use_attendee_timezones := false }

/-- Environment in which primary declares UTC and alice@x declares
Asia/Jerusalem (modelled at the +120 minute winter offset). -/
def envJer : Env :=
  { now := 1440 * 20290
    declaredTz := fun c =>
      if c = "primary" then .ok (some "UTC")
      else if c = "alice@x" then .ok (some "Asia/Jerusalem")
      else .ok none
    eventsOf := fun _ => .ok []
    freebusy := fun _ => .ok [("primary", []), ("alice@x", [])]
    off := fun t =>
      if t = "UTC" then some 0
      else if t = "Asia/Jerusalem" then some 120
      else none }

/-- Default work-week-aware request with an explicit late preferred window
22:00-23:30 on a Thursday. -/
def argsC3 : Args :=
  { attendees := ["alice@x"], duration_minutes := 30
    date_start := some 20300, date_end := some 20300
    preferred_time_start := some (22, 0), preferred_time_end := some (23, 30)
    earliest_hour := 7, latest_hour := 20, timezone := "UTC"
    max_suggestions := 10, weekdays_only := true, allowed_weekdays := none
    use_attendee_timezones := true }

/-- Default work-week-aware request without any preferred window, one
Thursday, 60 minute meetings, at most two suggestions. -/
def argsC3w : Args :=
  { attendees := ["alice@x"], duration_minutes := 60
    date_start := some 20300, date_end := some 20300
    preferred_time_start := none, preferred_time_end := none
    earliest_hour := 9, latest_hour := 17, timezone := "UTC"
    max_suggestions := 2, weekdays_only := true, allowed_weekdays := none
    use_attendee_timezones := true }

/-- Work-week-aware request with preferred window 10:00-12:00 over a
Thursday-Friday range. -/
def argsC4 : Args :=
  { attendees := ["alice@x"], duration_minutes := 30
    date_start := some 20300, date_end := some 20301
    preferred_time_start := some (10, 0), preferred_time_end := some (12, 0)
    earliest_hour := 7, latest_hour := 20, timezone := "UTC"
    max_suggestions := 10, weekdays_only := true, allowed_weekdays := none
    use_attendee_timezones := true }

/-- Environment with two fully free days for the suggestion-cap scenario. -/
def envC5 : Env :=
  { now := 1440 * 20290
    declaredTz := fun _ => .ok none
    eventsOf := fun _ => .ok []
    freebusy := fun _ => .ok [("primary", []), ("a@x", [])]
    off := fun _ => some 0 }

/-- Request over two free days with max_suggestions 1. -/
def argsC5 : Args :=
  { attendees := ["a@x"], duration_minutes := 30
    date_start := some 20300, date_end := some 20301
    preferred_time_start := none, preferred_time_end := none
    earliest_hour := 9, latest_hour := 17, timezone := "UTC"
    max_suggestions := 1, weekdays_only := false, allowed_weekdays := none
    use_attendee_timezones := false }

/-- Environment whose offsets place Tokyo nine hours east of UTC. -/
def envC6 : Env :=
  { now := 1440 * 20290
    declaredTz := fun _ => .ok none
    eventsOf := fun _ => .ok []
    freebusy := fun _ => .ok []
    off := fun t =>
      if t = "UTC" then some 0
      else if t = "Asia/Tokyo" then some 540
      else none }

/-- Attendee map with an empty 9-17 working-hour intersection. -/
def attC6 : List (String × String) := [("primary", "UTC"), ("bob@x", "Asia/Tokyo")]

/-- Request with 9-17 working hours and timezone detection, no preferred
window, for exercising the empty-intersection day skip. -/
def argsC6 : Args :=
  { attendees := ["bob@x"], duration_minutes := 30
    date_start := some 20298, date_end := some 20298
    preferred_time_start := none, preferred_time_end := none
    earliest_hour := 9, latest_hour := 17, timezone := "UTC"
    max_suggestions := 10, weekdays_only := true, allowed_weekdays := none
    use_attendee_timezones := true }

/-- Environment whose metadata lookup raises and whose events majority is
Asia/Tokyo. -/
def envC7 : Env :=
  { now := 1440 * 20290
    declaredTz := fun _ => .error ()
    eventsOf := fun _ => .ok [evWith "Asia/Tokyo", evWith "Asia/Tokyo", evWith "UTC"]
    freebusy := fun _ => .ok []
    off := fun _ => some 0 }

/-- Event list with a two-two tie between zones A and B, A seen first. -/
def evsC8 : List GEvent := [evWith "A", evWith "B", evWith "B", evWith "A"]

/-- Environment serving the tied event list. -/
def envC8 : Env :=
  { now := 1440 * 20290
    declaredTz := fun _ => .ok none
    eventsOf := fun _ => .ok evsC8
    freebusy := fun _ => .ok []
    off := fun _ => some 0 }

/-- Environment whose now is exactly 14:00 on day 20300. -/
def envC9 : Env :=
  { now := 1440 * 20300 + 840
    declaredTz := fun _ => .ok none
    eventsOf := fun _ => .ok []
    freebusy := fun _ => .ok [("primary", []), ("a@x", [])]
    off := fun _ => some 0 }

/-- Request spanning the day before now and the current date, fixed hours
13-15 UTC. -/
def argsC9 : Args :=
  { attendees := ["a@x"], duration_minutes := 30
    date_start := some 20299, date_end := some 20300
    preferred_time_start := none, preferred_time_end := none
    earliest_hour := 13, latest_hour := 15, timezone := "UTC"
    max_suggestions := 10, weekdays_only := false, allowed_weekdays := none
    use_attendee_timezones := false }

/-- Environment whose now is 23:45 on day 20300. -/
def envC10 : Env :=
  { now := 1440 * 20300 + 1425
    declaredTz := fun _ => .ok none
    eventsOf := fun _ => .ok []
    freebusy := fun _ => .ok [("primary", []), ("bob@x", [])]
    off := fun _ => some 0 }

/-- Request spanning the current date and the following free day. -/
def argsC10 : Args :=
  { attendees := ["bob@x"], duration_minutes := 30
    date_start := some 20300, date_end := some 20301
    preferred_time_start := none, preferred_time_end := none
    earliest_hour := 7, latest_hour := 20, timezone := "UTC"
    max_suggestions := 10, weekdays_only := false, allowed_weekdays := none
    use_attendee_timezones := false }

/-!
Invariants of the slot scan loop: every produced slot is a free,
duration-long candidate inside the window and at or after the scan
position; the accumulated list never exceeds the suggestion cap; and the
list stays sorted by start time.
-/

lemma scan_mem {ab : List (String × List (Int × Int))} {dur ms de : Int}
    {fuel : Nat} {cur : Int} {acc : List (Int × Int)} {s : Int × Int}
    (h : s ∈ scanSlotsAux ab dur ms de fuel cur acc) :
    s ∈ acc ∨ (cur ≤ s.1 ∧ s.1 < de ∧ s.2 = s.1 + dur ∧ s.2 ≤ de ∧
      isFreeSlot ab s.1 s.2 = true) := by
  induction fuel generalizing cur acc with
  | zero => exact Or.inl h
  | succ fuel ih =>
    rw [scanSlotsAux] at h
    by_cases hg : cur < de ∧ (acc.length : Int) < ms
    · rw [if_pos hg] at h
      by_cases hb : cur + dur > de
      · rw [if_pos hb] at h; exact Or.inl h
      · rw [if_neg hb] at h
        rcases ih h with hin | hnew
        · by_cases hf : isFreeSlot ab cur (cur + dur) = true
          · rw [if_pos hf] at hin
            rcases List.mem_append.mp hin with h1 | h2
            · exact Or.inl h1
            · have hs2 : s = (cur, cur + dur) := List.mem_singleton.mp h2
              subst hs2
              exact Or.inr ⟨le_refl _, hg.1, rfl, by omega, hf⟩
          · rw [if_neg hf] at hin; exact Or.inl hin
        · exact Or.inr ⟨by omega, hnew.2⟩
    · rw [if_neg hg] at h; exact Or.inl h

lemma scan_len {ab : List (String × List (Int × Int))} {dur ms de : Int}
    {fuel : Nat} {cur : Int} {acc : List (Int × Int)}
    (h : (acc.length : Int) ≤ ms) :
    ((scanSlotsAux ab dur ms de fuel cur acc).length : Int) ≤ ms := by
  induction fuel generalizing cur acc with
  | zero => simpa [scanSlotsAux] using h
  | succ fuel ih =>
    rw [scanSlotsAux]
    by_cases hg : cur < de ∧ (acc.length : Int) < ms
    · rw [if_pos hg]
      by_cases hb : cur + dur > de
      · rw [if_pos hb]; exact h
      · rw [if_neg hb]
        apply ih
        by_cases hf : isFreeSlot ab cur (cur + dur) = true
        · rw [if_pos hf]
          have := hg.2
          simp only [List.length_append, List.length_singleton]
          push_cast
          omega
        · rw [if_neg hf]; exact h
    · rw [if_neg hg]; exact h

lemma scan_pairwise {ab : List (String × List (Int × Int))} {dur ms de : Int}
    {fuel : Nat} {cur : Int} {acc : List (Int × Int)}
    (hp : acc.Pairwise (fun x y => x.1 < y.1))
    (hlt : ∀ x ∈ acc, x.1 < cur) :
    (scanSlotsAux ab dur ms de fuel cur acc).Pairwise (fun x y => x.1 < y.1) := by
  induction fuel generalizing cur acc with
  | zero => simpa [scanSlotsAux] using hp
  | succ fuel ih =>
    rw [scanSlotsAux]
    by_cases hg : cur < de ∧ (acc.length : Int) < ms
    · rw [if_pos hg]
      by_cases hb : cur + dur > de
      · rw [if_pos hb]; exact hp
      · rw [if_neg hb]
        apply ih
        · by_cases hf : isFreeSlot ab cur (cur + dur) = true
          · rw [if_pos hf]
            refine List.pairwise_append.mpr ⟨hp, List.pairwise_singleton _ _, ?_⟩
            intro x hx y hy
            have hy2 : y = (cur, cur + dur) := List.mem_singleton.mp hy
            subst hy2
            exact hlt x hx
          · rw [if_neg hf]; exact hp
        · intro x hx
          by_cases hf : isFreeSlot ab cur (cur + dur) = true
          · rw [if_pos hf] at hx
            rcases List.mem_append.mp hx with h1 | h2
            · have := hlt x h1; omega
            · have hx2 : x = (cur, cur + dur) := List.mem_singleton.mp h2
              subst hx2; simp
          · rw [if_neg hf] at hx
            have := hlt x hx; omega
    · rw [if_neg hg]; exact hp

/-- The scan start is never before the window start; it equals the window
start off the current date, and lies strictly after now when the row of
conditions for the adjustment holds. -/
lemma initPosition_ok {now nowDay d ds c : Int}
    (h : initPosition now nowDay d ds = .ok c) :
    ds ≤ c ∧ (¬ (d = nowDay ∧ ds < now) → c = ds) ∧
      ((d = nowDay ∧ ds < now) → now < c) := by
  unfold initPosition at h
  by_cases hc : d = nowDay ∧ ds < now
  · rw [if_pos hc] at h
    dsimp only [] at h
    by_cases hz : (now % 60 / 30 + 1) * 30 % 60 = 0
    · rw [if_pos hz] at h
      by_cases hh : (now - now % 60 + (now % 60 / 30 + 1) * 30 % 60) / 60 % 24 = 23
      · rw [if_pos hh] at h; cases h
      · rw [if_neg hh] at h
        simp only [Except.ok.injEq] at h
        refine ⟨?_, fun hn => absurd hc hn, fun _ => ?_⟩ <;> omega
    · rw [if_neg hz] at h
      simp only [Except.ok.injEq] at h
      refine ⟨?_, fun hn => absurd hc hn, fun _ => ?_⟩ <;> omega
  · rw [if_neg hc] at h
    simp only [Except.ok.injEq] at h
    subst h
    exact ⟨le_refl _, fun _ => rfl, fun hcc => absurd hcc hc⟩

/-- Every slot a processed day adds lies inside the window of that day, at
or after the (possibly adjusted) scan start, has the requested duration,
and passes the free test. -/
lemma processDay_mem {env : Env} {a : Args} {att : List (String × String)}
    {ab : List (String × List (Int × Int))} {d : Int} {acc res : List (Int × Int)}
    {s : Int × Int}
    (h : processDay env a att ab d acc = .ok res) (hs : s ∈ res) :
    s ∈ acc ∨ ∃ ws we c,
      dayWindow env a att d = .ok (some (ws, we)) ∧
      initPosition env.now (env.now / 1440) d ws = .ok c ∧
      ws ≤ c ∧ c ≤ s.1 ∧ s.1 < we ∧ s.2 = s.1 + a.duration_minutes ∧ s.2 ≤ we ∧
      isFreeSlot ab s.1 s.2 = true := by
  unfold processDay at h
  split at h
  · cases h
  · injection h with h; subst h; exact Or.inl hs
  next ds de hw =>
    split at h
    · cases h
    next c hip =>
      injection h with h
      subst h
      rcases scan_mem hs with h0 | ⟨hc1, hc2, hc3, hc4, hc5⟩
      · exact Or.inl h0
      · exact Or.inr ⟨ds, de, c, hw, hip, (initPosition_ok hip).1, hc1, hc2, hc3, hc4, hc5⟩

/-- A processed day never shrinks the slot list and respects the cap. -/
lemma processDay_len {env : Env} {a : Args} {att : List (String × String)}
    {ab : List (String × List (Int × Int))} {d : Int} {acc res : List (Int × Int)}
    (h : processDay env a att ab d acc = .ok res)
    (hl : (acc.length : Int) ≤ a.max_suggestions) :
    (res.length : Int) ≤ a.max_suggestions := by
  unfold processDay at h
  split at h
  · cases h
  · injection h with h; subst h; exact hl
  · split at h
    · cases h
    · injection h with h; subst h; exact scan_len hl

/-- Day-loop version of processDay_mem: every accumulated slot comes from
the window of some processed day of the range. -/
lemma dayLoop_mem {env : Env} {a : Args} {att : List (String × String)}
    {ab : List (String × List (Int × Int))} {endDay : Int} {fuel : Nat} {d : Int}
    {acc res : List (Int × Int)} {s : Int × Int}
    (h : dayLoopAux env a att ab endDay fuel d acc = .ok res) (hs : s ∈ res) :
    s ∈ acc ∨ ∃ dd ws we c, d ≤ dd ∧ dd ≤ endDay ∧
      dayWindow env a att dd = .ok (some (ws, we)) ∧
      initPosition env.now (env.now / 1440) dd ws = .ok c ∧
      ws ≤ c ∧ c ≤ s.1 ∧ s.1 < we ∧ s.2 = s.1 + a.duration_minutes ∧ s.2 ≤ we ∧
      isFreeSlot ab s.1 s.2 = true := by
  induction fuel generalizing d acc with
  | zero =>
    rw [dayLoopAux] at h
    injection h with h; subst h; exact Or.inl hs
  | succ fuel ih =>
    rw [dayLoopAux] at h
    by_cases hg : d ≤ endDay ∧ (acc.length : Int) < a.max_suggestions
    · rw [if_pos hg] at h
      split at h
      · cases h
      next acc2 hpd =>
        rcases ih h with hin | ⟨dd, ws, we, c, hd1, hd2, hrest⟩
        · rcases processDay_mem hpd hin with h1 | ⟨ws, we, c, hrest⟩
          · exact Or.inl h1
          · exact Or.inr ⟨d, ws, we, c, le_refl d, hg.1, hrest⟩
        · exact Or.inr ⟨dd, ws, we, c, by omega, hd2, hrest⟩
    · rw [if_neg hg] at h
      injection h with h; subst h; exact Or.inl hs

/-- The day loop never lets the slot list exceed the suggestion cap. -/
lemma dayLoop_len {env : Env} {a : Args} {att : List (String × String)}
    {ab : List (String × List (Int × Int))} {endDay : Int} {fuel : Nat} {d : Int}
    {acc res : List (Int × Int)}
    (h : dayLoopAux env a att ab endDay fuel d acc = .ok res)
    (hl : (acc.length : Int) ≤ a.max_suggestions) :
    (res.length : Int) ≤ a.max_suggestions := by
  induction fuel generalizing d acc with
  | zero => rw [dayLoopAux] at h; injection h with h; subst h; exact hl
  | succ fuel ih =>
    rw [dayLoopAux] at h
    by_cases hg : d ≤ endDay ∧ (acc.length : Int) < a.max_suggestions
    · rw [if_pos hg] at h
      split at h
      · cases h
      next acc2 hpd => exact ih h (processDay_len hpd hl)
    · rw [if_neg hg] at h
      injection h with h; subst h; exact hl

/-- C1: for every request accepted by find_meeting_slots, every returned
slot is [start, start + duration) and overlaps no busy interval stored for
any calendar of the free/busy answer (which the request populates with all
attendees plus the primary calendar of the organizer), where [a1, a2) and
[b1, b2) overlap iff a1 < b2 and b1 < a2. -/
theorem c1_returned_slots_free (env : Env) (a : Args)
    (fb : List (String × List (Int × Int))) (slots : List (Int × Int))
    (hfb : env.freebusy ("primary" :: a.attendees) = .ok fb)
    (hres : find_meeting_slots env a = .slots slots) :
    ∀ s ∈ slots, s.2 = s.1 + a.duration_minutes ∧
      ∀ cb ∈ fb, ∀ b ∈ cb.2, ¬ (s.1 < b.2 ∧ b.1 < s.2) := by
  intro s hs
  unfold find_meeting_slots at hres
  rw [hfb] at hres
  dsimp only [] at hres
  split at hres
  · cases hres
  next slots2 hdl =>
    by_cases he : slots2 = []
    · rw [if_pos he] at hres; cases hres
    · rw [if_neg he] at hres
      injection hres with hres
      subst hres
      rcases dayLoop_mem hdl hs with h0 | ⟨dd, ws, we, c, _, _, _, _, _, _, _, hdur, _, hfree⟩
      · cases h0
      · refine ⟨hdur, ?_⟩
        intro cb hcb b hb
        unfold isFreeSlot at hfree
        have h1 := List.all_eq_true.mp hfree cb hcb
        have h2 := List.all_eq_true.mp h1 b hb
        rcases (Bool.or_eq_true _ _).mp h2 with h3 | h3 <;>
          · have := of_decide_eq_true h3; omega

/-- Witness for C1: in the scenario-B request the returned 09:30 slot does
not overlap the stored 09:00-09:30 busy block of the attendee. -/
theorem c1_returned_slots_free_witness :
    envC1.freebusy ("primary" :: argsC1.attendees) =
      .ok [("primary", []), ("a@x", [(29232540, 29232570)])] ∧
    find_meeting_slots envC1 argsC1 =
      .slots [(29232570, 29232600), (29232600, 29232630), (29232630, 29232660)] ∧
    ¬ ((29232570 : Int) < 29232570 ∧ (29232540 : Int) < 29232600) := by
  refine ⟨rfl, by decide, ?_⟩
  have h := c1_returned_slots_free envC1 argsC1
      [("primary", []), ("a@x", [(29232540, 29232570)])]
      [(29232570, 29232600), (29232600, 29232630), (29232630, 29232660)]
      rfl (by decide)
  exact (h (29232570, 29232600) (by decide)).2 ("a@x", [(29232540, 29232570)]) (by decide)
      (29232540, 29232570) (by decide)

/-- Counterexample for C2: the request with date_end two days before
date_start is not rejected with a ConfigurationError and does not avoid
collaborator calls - the free/busy query is issued and the ordinary
no-slots outcome is returned, reporting a negative searched-days figure. -/
theorem c2_counterexample :
    find_meeting_slots envC2 argsC2 = .noSlots (-2) ∧
    FmsResult.noSlots (-2) ≠ FmsResult.error ∧
    fmsCalls envC2 argsC2 = [CollabCall.freebusyQuery] ∧
    fmsCalls envC2 argsC2 ≠ [] := by
  exact ⟨by decide, by decide, by decide, by decide⟩

/-- C2 amended: no request-shape validation exists.  A request with
date_end before date_start proceeds through the collaborator calls
(including the free/busy query), scans zero days, and returns the normal
no-slots outcome whose days-searched figure is the negative difference
dateEnd minus dateStart; no ConfigurationError is raised. -/
theorem c2_amended_no_validation (env : Env) (a : Args) (ds de : Int)
    (fb : List (String × List (Int × Int)))
    (h1 : a.date_start = some ds) (h2 : a.date_end = some de) (h3 : de < ds)
    (hfb : env.freebusy ("primary" :: a.attendees) = .ok fb) :
    find_meeting_slots env a = .noSlots (de - ds) ∧
    CollabCall.freebusyQuery ∈ fmsCalls env a := by
  constructor
  · unfold find_meeting_slots
    rw [hfb]
    dsimp only []
    unfold startDt endDt
    rw [h1, h2]
    dsimp only []
    have e1 : (1440 * ds) / 1440 = ds := by omega
    have e2 : (1440 * de) / 1440 = de := by omega
    rw [e1, e2]
    rw [dayLoopAux]
    rw [if_neg (fun hg => absurd hg.1 (by omega))]
    dsimp only []
    rw [if_pos rfl]
    congr 1
    omega
  · unfold fmsCalls
    dsimp only []
    exact List.mem_append.mpr (Or.inr (List.mem_singleton.mpr rfl))

/-- Witness for C2 amended: the concrete reversed-range request yields the
no-slots outcome with days-searched -2, after the free/busy call. -/
theorem c2_amended_no_validation_witness :
    (argsC2.date_start = some 20302 ∧ argsC2.date_end = some 20300 ∧
      (20300 : Int) < 20302 ∧
      envC2.freebusy ("primary" :: argsC2.attendees) = .ok [("primary", [])]) ∧
    find_meeting_slots envC2 argsC2 = .noSlots (20300 - 20302) ∧
    CollabCall.freebusyQuery ∈ fmsCalls envC2 argsC2 := by
  refine ⟨⟨rfl, rfl, by decide, rfl⟩, ?_⟩
  exact c2_amended_no_validation envC2 argsC2 20302 20300 [("primary", [])]
    rfl rfl (by decide) rfl

/-- C10: a valid request on which find_meeting_slots returns the error
outcome instead of a slot list - the range starts on the current date,
the window start 07:00 precedes now, now has hour 23 and minute 45, and
the scan-start rounding tries to build hour 24; the raise is only caught
by the top-level handler, so the free slots of the remaining day 20301
(whose scan alone would accept 07:00) are never produced. -/
theorem c10_midnight_rounding_error :
    find_meeting_slots envC10 argsC10 = .error ∧
    envC10.now / 60 % 24 = 23 ∧ envC10.now % 60 = 45 ∧
    (29232420 : Int) < envC10.now ∧
    headOk (processDay envC10 argsC10 (attendeeTimezones envC10 argsC10)
      [("primary", []), ("bob@x", [])] 20301 []) = some (29233860, 29233890) := by
  exact ⟨by decide, by decide, by decide, by decide, by decide⟩

/-!
Structural facts about the attendee loop of find_working_hours_overlap.
-/

lemma fwho_loop_nil (env : Env) (d h1 h2 : Int) (st : Option (Int × Int)) :
    fwho_loop env d h1 h2 st [] = .ok st := rfl

lemma fwho_loop_cons (env : Env) (d h1 h2 : Int) (st : Option (Int × Int))
    (q : String × String) (rest : List (String × String)) :
    fwho_loop env d h1 h2 st (q :: rest) =
      if weekday d ∈ get_workweek_for_timezone q.2 then
        match fwho_try env d h1 h2 q, st with
        | some iv, none => fwho_loop env d h1 h2 (some iv) rest
        | some iv, some (s, e) =>
          fwho_loop env d h1 h2 (some (max s iv.1, min e iv.2)) rest
        | none, some w => fwho_loop env d h1 h2 (some w) rest
        | none, none =>
          match naiveTry d h1 h2 with
          | .ok iv => fwho_loop env d h1 h2 (some iv) rest
          | .error u => .error u
      else .ok none := rfl

lemma mkTime_ok {h m t : Int} (hk : mkTimeMinutes h m = .ok t) :
    0 ≤ h ∧ h ≤ 23 ∧ 0 ≤ m ∧ m ≤ 59 ∧ t = h * 60 + m := by
  unfold mkTimeMinutes at hk
  by_cases hc : 0 ≤ h ∧ h ≤ 23 ∧ 0 ≤ m ∧ m ≤ 59
  · rw [if_pos hc] at hk
    injection hk with hk
    exact ⟨hc.1, hc.2.1, hc.2.2.1, hc.2.2.2, hk.symm⟩
  · rw [if_neg hc] at hk; cases hk

/-- The converted interval of a constructible attendee with valid hours. -/
lemma fwho_try_some {env : Env} {d h1 h2 : Int} {q : String × String} {iv : Int × Int}
    (h : fwho_try env d h1 h2 q = some iv) :
    ∃ o t1 t2, env.off q.2 = some o ∧ mkTimeMinutes h1 0 = .ok t1 ∧
      mkTimeMinutes h2 0 = .ok t2 ∧ iv = (1440 * d + t1 - o, 1440 * d + t2 - o) := by
  unfold fwho_try at h
  rcases ho : env.off q.2 with _ | o <;>
    rcases hm1 : mkTimeMinutes h1 0 with u1 | t1 <;>
      rcases hm2 : mkTimeMinutes h2 0 with u2 | t2 <;>
        rw [ho, hm1, hm2] at h <;> dsimp only [] at h <;>
          first
            | (injection h with h; exact ⟨o, t1, t2, rfl, rfl, rfl, h.symm⟩)
            | cases h

/-- The naive fallback interval with valid hours. -/
lemma naiveTry_ok {d h1 h2 : Int} {iv : Int × Int} (h : naiveTry d h1 h2 = .ok iv) :
    ∃ t1 t2, mkTimeMinutes h1 0 = .ok t1 ∧ mkTimeMinutes h2 0 = .ok t2 ∧
      iv = (1440 * d + t1, 1440 * d + t2) := by
  unfold naiveTry at h
  rcases hm1 : mkTimeMinutes h1 0 with u1 | t1 <;>
    rcases hm2 : mkTimeMinutes h2 0 with u2 | t2 <;>
      rw [hm1, hm2] at h <;> dsimp only [] at h <;>
        first
          | (injection h with h; exact ⟨t1, t2, rfl, rfl, h.symm⟩)
          | cases h

/-- A successful non-empty intersection passes the head attendee (its
weekday check holds) and continues with a non-empty state. -/
lemma fwho_loop_step {env : Env} {d h1 h2 : Int} {st : Option (Int × Int)}
    {x : String × String} {rest : List (String × String)} {w : Int × Int}
    (h : fwho_loop env d h1 h2 st (x :: rest) = .ok (some w)) :
    weekday d ∈ get_workweek_for_timezone x.2 ∧
    ∃ p : Int × Int, fwho_loop env d h1 h2 (some p) rest = .ok (some w) := by
  rw [fwho_loop_cons] at h
  by_cases hwd : weekday d ∈ get_workweek_for_timezone x.2
  · refine ⟨hwd, ?_⟩
    rw [if_pos hwd] at h
    rcases hft : fwho_try env d h1 h2 x with _ | iv
    · rw [hft] at h
      rcases st with _ | ⟨s0, e0⟩ <;> dsimp only [] at h
      · rcases hnt : naiveTry d h1 h2 with u | iv2 <;> rw [hnt] at h <;> dsimp only [] at h
        · cases h
        · exact ⟨_, h⟩
      · exact ⟨_, h⟩
    · rw [hft] at h
      rcases st with _ | ⟨s0, e0⟩ <;> dsimp only [] at h
      · exact ⟨_, h⟩
      · exact ⟨_, h⟩
  · rw [if_neg hwd] at h
    simp at h

/-- A successful non-empty intersection means every attendee passed its
workweek check on this date. -/
lemma fwho_loop_weekday {env : Env} {d h1 h2 : Int} {st : Option (Int × Int)}
    {l : List (String × String)} {w : Int × Int}
    (h : fwho_loop env d h1 h2 st l = .ok (some w)) :
    ∀ q ∈ l, weekday d ∈ get_workweek_for_timezone q.2 := by
  induction l generalizing st with
  | nil => intro q hq; cases hq
  | cons x rest ih =>
    intro q hq
    obtain ⟨hwd, p, hp⟩ := fwho_loop_step h
    rcases List.mem_cons.mp hq with rfl | hq2
    · exact hwd
    · exact ih hp q hq2

/-- The loop only shrinks a non-empty intersection state. -/
lemma fwho_loop_mono {env : Env} {d h1 h2 : Int} {l : List (String × String)}
    {s0 e0 s e : Int}
    (h : fwho_loop env d h1 h2 (some (s0, e0)) l = .ok (some (s, e))) :
    s0 ≤ s ∧ e ≤ e0 := by
  induction l generalizing s0 e0 with
  | nil =>
    rw [fwho_loop_nil] at h
    simp only [Except.ok.injEq, Option.some.injEq, Prod.mk.injEq] at h
    omega
  | cons x rest ih =>
    rw [fwho_loop_cons] at h
    by_cases hwd : weekday d ∈ get_workweek_for_timezone x.2
    · rw [if_pos hwd] at h
      rcases hft : fwho_try env d h1 h2 x with _ | iv <;>
        rw [hft] at h <;> dsimp only [] at h
      · exact ih h
      · have hh := ih h
        exact ⟨le_trans (le_max_left _ _) hh.1, le_trans hh.2 (min_le_left _ _)⟩
    · rw [if_neg hwd] at h
      simp at h

/-- A successful non-empty intersection implies the working hours passed
the time constructor. -/
lemma fwho_loop_first_valid {env : Env} {d h1 h2 : Int} {x : String × String}
    {xs : List (String × String)} {w : Int × Int}
    (h : fwho_loop env d h1 h2 none (x :: xs) = .ok (some w)) :
    ∃ t1 t2, mkTimeMinutes h1 0 = .ok t1 ∧ mkTimeMinutes h2 0 = .ok t2 := by
  rw [fwho_loop_cons] at h
  by_cases hwd : weekday d ∈ get_workweek_for_timezone x.2
  · rw [if_pos hwd] at h
    rcases hft : fwho_try env d h1 h2 x with _ | iv <;>
      rw [hft] at h <;> dsimp only [] at h
    · rcases hnt : naiveTry d h1 h2 with u | iv2 <;> rw [hnt] at h <;> dsimp only [] at h
      · cases h
      · obtain ⟨t1, t2, ht1, ht2, _⟩ := naiveTry_ok hnt
        exact ⟨t1, t2, ht1, ht2⟩
    · obtain ⟨o, t1, t2, ho, ht1, ht2, _⟩ := fwho_try_some hft
      exact ⟨t1, t2, ht1, ht2⟩
  · rw [if_neg hwd] at h
    simp at h

/-- The result interval of any constructible attendee bounds a successful
intersection. -/
lemma fwho_loop_bound {env : Env} {d h1 h2 t1 t2 : Int}
    (ht1 : mkTimeMinutes h1 0 = .ok t1) (ht2 : mkTimeMinutes h2 0 = .ok t2)
    {l : List (String × String)} {q : String × String} {o : Int}
    {st : Option (Int × Int)} {s e : Int}
    (hq : q ∈ l) (ho : env.off q.2 = some o)
    (h : fwho_loop env d h1 h2 st l = .ok (some (s, e))) :
    1440 * d + t1 - o ≤ s ∧ e ≤ 1440 * d + t2 - o := by
  induction l generalizing st with
  | nil => cases hq
  | cons x rest ih =>
    rcases List.mem_cons.mp hq with rfl | hq2
    · rw [fwho_loop_cons] at h
      by_cases hwd : weekday d ∈ get_workweek_for_timezone q.2
      · rw [if_pos hwd] at h
        have hft : fwho_try env d h1 h2 q = some (1440 * d + t1 - o, 1440 * d + t2 - o) := by
          unfold fwho_try
          rw [ho, ht1, ht2]
        rw [hft] at h
        rcases st with _ | ⟨s0, e0⟩ <;> dsimp only [] at h
        · exact fwho_loop_mono h
        · have hh := fwho_loop_mono h
          exact ⟨le_trans (le_max_right _ _) hh.1, le_trans hh.2 (min_le_right _ _)⟩
      · rw [if_neg hwd] at h
        simp at h
    · obtain ⟨hwd, p, hp⟩ := fwho_loop_step h
      exact ih hq2 hp

/-- A window produced by find_working_hours_overlap comes from the loop and
is non-degenerate. -/
lemma fwho_some_elim {env : Env} {att : List (String × String)} {d h1 h2 s e : Int}
    (h : find_working_hours_overlap env att d h1 h2 = .ok (some (s, e))) :
    fwho_loop env d h1 h2 none att = .ok (some (s, e)) ∧ s < e := by
  unfold find_working_hours_overlap at h
  split at h
  · cases h
  · simp at h
  next s2 e2 heq =>
    by_cases hlt : s2 < e2
    · rw [if_pos hlt] at h
      simp only [Except.ok.injEq, Option.some.injEq, Prod.mk.injEq] at h
      obtain ⟨hs, he⟩ := h
      subst hs; subst he
      exact ⟨heq, hlt⟩
    · rw [if_neg hlt] at h
      simp at h

/-- With no preferred window and timezone detection on, any day window is
exactly the working-hours overlap. -/
lemma dayWindow_nopref {env : Env} {a : Args} {att : List (String × String)} {d : Int}
    {w : Int × Int}
    (hp1 : a.preferred_time_start = none) (hp2 : a.preferred_time_end = none)
    (huse : a.use_attendee_timezones = true)
    (h : dayWindow env a att d = .ok (some w)) :
    find_working_hours_overlap env att d a.earliest_hour a.latest_hour = .ok (some w) := by
  unfold dayWindow at h
  by_cases hsk : daySkipped a att (weekday d) = true
  · rw [if_pos hsk] at h
    simp at h
  · rw [if_neg hsk, hp1, hp2] at h
    simp only [Option.isSome_none, Bool.false_eq_true, or_self, if_false] at h
    unfold fallbackWindow at h
    rw [huse] at h
    simp only [if_true] at h
    exact h

/-- Counterexample for C3: in default work-week-aware mode, a request with
an explicit late preferred window produces a slot on a Thursday scan date
whose local calendar date in Asia/Jerusalem is the following Friday
(weekday 4) - the work-week filter checks only the scan date. -/
theorem c3_counterexample :
    find_meeting_slots envJer argsC3 =
      .slots [(29233320, 29233350), (29233350, 29233380), (29233380, 29233410)] ∧
    argsC3.weekdays_only = true ∧ argsC3.use_attendee_timezones = true ∧
    argsC3.allowed_weekdays = none ∧
    ("alice@x", "Asia/Jerusalem") ∈ attendeeTimezones envJer argsC3 ∧
    envJer.off "Asia/Jerusalem" = some 120 ∧
    weekday ((29233320 + 120) / 1440) = 4 := by
  exact ⟨by decide, rfl, rfl, rfl, by decide, rfl, by decide⟩

/-- C3 amended: in default work-week-aware mode with no explicit preferred
time range, whenever a participating calendar resolves to Asia/Jerusalem
(with a constructible zone of offset j), no returned slot starts on a
local Friday or Saturday of that zone; with a preferred range supplied the
filter applies only to the scan date and the property can fail. -/
theorem c3_amended_workweek (env : Env) (a : Args) (cal : String) (j : Int)
    (slots : List (Int × Int)) (s : Int × Int)
    (hmode1 : a.weekdays_only = true) (hmode3 : a.allowed_weekdays = none)
    (hmode2 : a.use_attendee_timezones = true)
    (hp1 : a.preferred_time_start = none) (hp2 : a.preferred_time_end = none)
    (hjer : (cal, "Asia/Jerusalem") ∈ attendeeTimezones env a)
    (hoff : env.off "Asia/Jerusalem" = some j)
    (hres : find_meeting_slots env a = .slots slots) (hs : s ∈ slots) :
    weekday ((s.1 + j) / 1440) ≠ 4 ∧ weekday ((s.1 + j) / 1440) ≠ 5 := by
  unfold find_meeting_slots at hres
  rcases hfb : env.freebusy ("primary" :: a.attendees) with u | fb
  all_goals rw [hfb] at hres; dsimp only [] at hres
  · cases hres
  · split at hres
    · cases hres
    next slots2 hdl =>
      by_cases he : slots2 = []
      · rw [if_pos he] at hres; cases hres
      · rw [if_neg he] at hres
        injection hres with hres
        subst hres
        rcases dayLoop_mem hdl hs with h0 |
          ⟨dd, ws, we, c, _, _, hw, hip, hwsc, hcs, hswe, hdur, hs2we, hfree⟩
        · cases h0
        · have hfw := dayWindow_nopref hp1 hp2 hmode2 hw
          obtain ⟨hloop, hlt⟩ := fwho_some_elim hfw
          rcases hattc : attendeeTimezones env a with _ | ⟨x, xs⟩
          · rw [hattc] at hjer; cases hjer
          · rw [hattc] at hloop hjer
            obtain ⟨t1, t2, ht1, ht2⟩ := fwho_loop_first_valid hloop
            have hbound := fwho_loop_bound ht1 ht2 hjer hoff hloop
            have hwd := fwho_loop_weekday hloop (cal, "Asia/Jerusalem") hjer
            obtain ⟨hh1a, hh1b, _, _, hte1⟩ := mkTime_ok ht1
            obtain ⟨hh2a, hh2b, _, _, hte2⟩ := mkTime_ok ht2
            have hww : get_workweek_for_timezone "Asia/Jerusalem" = [6, 0, 1, 2, 3] := by
              decide
            rw [hww] at hwd
            simp only [List.mem_cons, List.not_mem_nil, or_false] at hwd
            have hdd : (s.1 + j) / 1440 = dd := by omega
            rw [hdd]
            rcases hwd with h6 | h0 | h1 | h2 | h3 <;> omega

/-- Witness for C3 amended: the Thursday-only work-week-aware request with
the Jerusalem attendee returns a 09:00 slot whose local Jerusalem date is
that same Thursday. -/
theorem c3_amended_workweek_witness :
    find_meeting_slots envJer argsC3w =
      .slots [(29232540, 29232600), (29232570, 29232630)] ∧
    (weekday ((29232540 + 120) / 1440) ≠ 4 ∧ weekday ((29232540 + 120) / 1440) ≠ 5) := by
  refine ⟨by decide, ?_⟩
  exact c3_amended_workweek envJer argsC3w "alice@x" 120
    [(29232540, 29232600), (29232570, 29232630)] (29232540, 29232600)
    rfl rfl rfl rfl rfl (by decide) rfl (by decide) (by decide)

/-- Intersecting a non-empty state over attendees that all pass the
workweek check and all convert cleanly folds max over starts and min over
ends. -/
lemma fwho_loop_all {env : Env} {d h1 h2 t1 t2 : Int}
    (ht1 : mkTimeMinutes h1 0 = .ok t1) (ht2 : mkTimeMinutes h2 0 = .ok t2) :
    ∀ (l : List (String × String)), (∀ q ∈ l, (env.off q.2).isSome = true) →
    (∀ q ∈ l, weekday d ∈ get_workweek_for_timezone q.2) →
    ∀ (s e : Int),
    fwho_loop env d h1 h2 (some (s, e)) l =
      .ok (some (l.foldl (fun m q => max m (1440 * d + t1 - offOf env q)) s,
                 l.foldl (fun m q => min m (1440 * d + t2 - offOf env q)) e)) := by
  intro l
  induction l with
  | nil => intro _ _ s e; rw [fwho_loop_nil]; simp
  | cons x rest ih =>
    intro hoff hww s e
    rw [fwho_loop_cons, if_pos (hww x (List.mem_cons_self x rest))]
    obtain ⟨o, ho⟩ := Option.isSome_iff_exists.mp (hoff x (List.mem_cons_self x rest))
    have hft : fwho_try env d h1 h2 x = some (1440 * d + t1 - o, 1440 * d + t2 - o) := by
      unfold fwho_try
      rw [ho, ht1, ht2]
    rw [hft]
    dsimp only []
    have hoo : offOf env x = o := by
      unfold offOf
      rw [ho]
      rfl
    rw [ih (fun q hq => hoff q (List.mem_cons_of_mem x hq))
      (fun q hq => hww q (List.mem_cons_of_mem x hq))]
    simp only [List.foldl_cons, hoo]

/-- C6: on a date that is a working day for every attendee, with all zones
constructible and valid hours, the working window is exactly the
specification formula - start is the max of all attendee UTC starts, end
the min of all attendee UTC ends, and None when start is not before end;
and a None window makes the day contribute no slot and no error. -/
theorem c6_overlap_intersection (env : Env) (p : String × String)
    (rest : List (String × String)) (d h1 h2 : Int)
    (hh1 : 0 ≤ h1 ∧ h1 ≤ 23) (hh2 : 0 ≤ h2 ∧ h2 ≤ 23)
    (hoff : ∀ q ∈ p :: rest, (env.off q.2).isSome = true)
    (hww : ∀ q ∈ p :: rest, weekday d ∈ get_workweek_for_timezone q.2) :
    find_working_hours_overlap env (p :: rest) d h1 h2 =
      .ok (spec_working_window env p rest d h1 h2) ∧
    ∀ (a : Args) (ab : List (String × List (Int × Int))) (acc : List (Int × Int)),
      a.preferred_time_start = none → a.preferred_time_end = none →
      a.use_attendee_timezones = true →
      find_working_hours_overlap env (p :: rest) d a.earliest_hour a.latest_hour =
        .ok none →
      processDay env a (p :: rest) ab d acc = .ok acc := by
  constructor
  · have ht1 : mkTimeMinutes h1 0 = .ok (h1 * 60) := by
      unfold mkTimeMinutes
      rw [if_pos ⟨hh1.1, hh1.2, by norm_num, by norm_num⟩]
      norm_num
    have ht2 : mkTimeMinutes h2 0 = .ok (h2 * 60) := by
      unfold mkTimeMinutes
      rw [if_pos ⟨hh2.1, hh2.2, by norm_num, by norm_num⟩]
      norm_num
    unfold find_working_hours_overlap
    rw [fwho_loop_cons, if_pos (hww p (List.mem_cons_self p rest))]
    obtain ⟨o, ho⟩ := Option.isSome_iff_exists.mp (hoff p (List.mem_cons_self p rest))
    have hft : fwho_try env d h1 h2 p =
        some (1440 * d + h1 * 60 - o, 1440 * d + h2 * 60 - o) := by
      unfold fwho_try
      rw [ho, ht1, ht2]
    rw [hft]
    dsimp only []
    rw [fwho_loop_all ht1 ht2 rest (fun q hq => hoff q (List.mem_cons_of_mem p hq))
      (fun q hq => hww q (List.mem_cons_of_mem p hq))]
    have hoo : offOf env p = o := by
      unfold offOf
      rw [ho]
      rfl
    unfold spec_working_window
    rw [hoo]
  · intro a ab acc hp1 hp2 huse hfw
    have hdw : dayWindow env a (p :: rest) d = .ok none := by
      unfold dayWindow
      by_cases hsk : daySkipped a (p :: rest) (weekday d) = true
      · rw [if_pos hsk]
      · rw [if_neg hsk, hp1, hp2]
        simp only [Option.isSome_none, Bool.false_eq_true, or_self, if_false]
        unfold fallbackWindow
        rw [huse]
        simp only [if_true]
        exact hfw
    unfold processDay
    rw [hdw]

/-- Witness for C6: the UTC-Tokyo pair has an empty 9-17 intersection on
day 20298, the formula yields none, and the day contributes no slots. -/
theorem c6_overlap_intersection_witness :
    find_working_hours_overlap envC6 attC6 20298 9 17 =
      .ok (spec_working_window envC6 ("primary", "UTC")
        [("bob@x", "Asia/Tokyo")] 20298 9 17) ∧
    spec_working_window envC6 ("primary", "UTC")
      [("bob@x", "Asia/Tokyo")] 20298 9 17 = none ∧
    processDay envC6 argsC6 attC6 [] 20298 [] = .ok [] := by
  have h := c6_overlap_intersection envC6 ("primary", "UTC")
    [("bob@x", "Asia/Tokyo")] 20298 9 17
    (by norm_num) (by norm_num) (by decide) (by decide)
  exact ⟨h.1, by decide, h.2 argsC6 [] [] rfl rfl rfl (by decide)⟩

/-- With both preferred times present, valid, and a constructible primary
zone, the preferred try block converts the local range by a plain offset
shift. -/
lemma prefWindowTry_eq {env : Env} {a : Args} {att : List (String × String)}
    {sh sm eh em offP : Int}
    (hsp : a.preferred_time_start = some (sh, sm))
    (hep : a.preferred_time_end = some (eh, em))
    (hsv : 0 ≤ sh ∧ sh ≤ 23 ∧ 0 ≤ sm ∧ sm ≤ 59)
    (hev : 0 ≤ eh ∧ eh ≤ 23 ∧ 0 ≤ em ∧ em ≤ 59)
    (hoffP : env.off (lookupD att "primary" "UTC") = some offP) (d : Int) :
    prefWindowTry env a att d =
      some (1440 * d + (sh * 60 + sm) - offP, 1440 * d + (eh * 60 + em) - offP) := by
  unfold prefWindowTry
  rw [hoffP]
  dsimp only []
  rw [hsp, hep]
  dsimp only []
  unfold mkTimeMinutes
  rw [if_pos ⟨hsv.1, hsv.2.1, hsv.2.2.1, hsv.2.2.2⟩,
    if_pos ⟨hev.1, hev.2.1, hev.2.2.1, hev.2.2.2⟩]

/-- Day-window characterization in preferred mode: any produced window is
exactly the converted preferred range, and a degenerate conversion skips
every day without error. -/
lemma dayWindow_pref_char {env : Env} {a : Args} {att : List (String × String)}
    {sh sm eh em offP : Int}
    (hsp : a.preferred_time_start = some (sh, sm))
    (hep : a.preferred_time_end = some (eh, em))
    (hsv : 0 ≤ sh ∧ sh ≤ 23 ∧ 0 ≤ sm ∧ sm ≤ 59)
    (hev : 0 ≤ eh ∧ eh ≤ 23 ∧ 0 ≤ em ∧ em ≤ 59)
    (hoffP : env.off (lookupD att "primary" "UTC") = some offP) :
    (∀ d w, dayWindow env a att d = .ok (some w) →
      w = (1440 * d + (sh * 60 + sm) - offP, 1440 * d + (eh * 60 + em) - offP)) ∧
    (eh * 60 + em ≤ sh * 60 + sm → ∀ d, dayWindow env a att d = .ok none) := by
  constructor
  · intro d w h
    unfold dayWindow at h
    by_cases hsk : daySkipped a att (weekday d) = true
    · rw [if_pos hsk] at h
      simp at h
    · rw [if_neg hsk, hsp] at h
      simp only [Option.isSome_some, true_or, if_true] at h
      rw [prefWindowTry_eq hsp hep hsv hev hoffP d] at h
      dsimp only [] at h
      by_cases hlt : 1440 * d + (sh * 60 + sm) - offP < 1440 * d + (eh * 60 + em) - offP
      · rw [if_pos hlt] at h
        simp only [Except.ok.injEq, Option.some.injEq] at h
        exact h.symm
      · rw [if_neg hlt] at h
        simp at h
  · intro hdeg d
    unfold dayWindow
    by_cases hsk : daySkipped a att (weekday d) = true
    · rw [if_pos hsk]
    · rw [if_neg hsk, hsp]
      simp only [Option.isSome_some, true_or, if_true]
      rw [prefWindowTry_eq hsp hep hsv hev hoffP d]
      dsimp only []
      rw [if_neg (by omega)]

/-- C4: with both preferred times supplied and convertible in the primary
calendar zone, every produced day window equals the converted preferred
range (no per-attendee intersection), a conversion with start at or past
end skips each day without error, and every returned slot lies inside the
converted window of some day of the range. -/
theorem c4_preferred_window (env : Env) (a : Args) (sh sm eh em : Int)
    (hsp : a.preferred_time_start = some (sh, sm))
    (hep : a.preferred_time_end = some (eh, em))
    (hsv : 0 ≤ sh ∧ sh ≤ 23 ∧ 0 ≤ sm ∧ sm ≤ 59)
    (hev : 0 ≤ eh ∧ eh ≤ 23 ∧ 0 ≤ em ∧ em ≤ 59)
    (offP : Int)
    (hoffP : env.off (lookupD (attendeeTimezones env a) "primary" "UTC") = some offP) :
    (∀ d w, dayWindow env a (attendeeTimezones env a) d = .ok (some w) →
      w = (1440 * d + (sh * 60 + sm) - offP, 1440 * d + (eh * 60 + em) - offP)) ∧
    (eh * 60 + em ≤ sh * 60 + sm →
      ∀ d, dayWindow env a (attendeeTimezones env a) d = .ok none) ∧
    (∀ slots s, find_meeting_slots env a = .slots slots → s ∈ slots →
      ∃ d, startDt env a / 1440 ≤ d ∧ d ≤ endDt env a / 1440 ∧
        1440 * d + (sh * 60 + sm) - offP ≤ s.1 ∧
        s.2 ≤ 1440 * d + (eh * 60 + em) - offP) := by
  obtain ⟨hchar, hdeg⟩ := dayWindow_pref_char hsp hep hsv hev hoffP
  refine ⟨hchar, hdeg, ?_⟩
  intro slots s hres hs
  unfold find_meeting_slots at hres
  rcases hfb : env.freebusy ("primary" :: a.attendees) with u | fb
  all_goals rw [hfb] at hres; dsimp only [] at hres
  · cases hres
  · split at hres
    · cases hres
    next slots2 hdl =>
      by_cases he : slots2 = []
      · rw [if_pos he] at hres; cases hres
      · rw [if_neg he] at hres
        injection hres with hres
        subst hres
        rcases dayLoop_mem hdl hs with h0 |
          ⟨dd, ws, we, c, hd1, hd2, hw, hip, hwsc, hcs, hswe, hdur, hs2we, hfree⟩
        · cases h0
        · have hwchar := hchar dd (ws, we) hw
          injection hwchar with hws hwe
          exact ⟨dd, hd1, hd2, by omega, by omega⟩

/-- Witness for C4: the Thursday window of the 10:00-12:00 preferred
request is exactly the converted range, and the returned slots fill it. -/
theorem c4_preferred_window_witness :
    dayWindow envJer argsC4 (attendeeTimezones envJer argsC4) 20300 =
      .ok (some (29232600, 29232720)) ∧
    ((29232600, 29232720) : Int × Int) =
      (1440 * 20300 + (10 * 60 + 0) - 0, 1440 * 20300 + (12 * 60 + 0) - 0) ∧
    find_meeting_slots envJer argsC4 =
      .slots [(29232600, 29232630), (29232630, 29232660), (29232660, 29232690),
        (29232690, 29232720)] := by
  refine ⟨by decide, ?_, by decide⟩
  exact (c4_preferred_window envJer argsC4 10 0 12 0 rfl rfl (by norm_num) (by norm_num)
    0 (by decide)).1 20300 (29232600, 29232720) (by decide)

/-- An unconstructible zone never contributes an interval. -/
lemma fwho_try_none_of {env : Env} {d h1 h2 : Int} {q : String × String}
    (ho : env.off q.2 = none) : fwho_try env d h1 h2 q = none := by
  unfold fwho_try
  rcases hm1 : mkTimeMinutes h1 0 with u1 | t1 <;>
    rcases hm2 : mkTimeMinutes h2 0 with u2 | t2 <;>
      rw [ho]

/-- When no remaining attendee has a constructible zone, a non-empty state
passes through the loop unchanged. -/
lemma fwho_allnone_keep {env : Env} {d h1 h2 : Int} {l : List (String × String)}
    {w0 w : Int × Int}
    (hall : ∀ q ∈ l, env.off q.2 = none)
    (h : fwho_loop env d h1 h2 (some w0) l = .ok (some w)) : w = w0 := by
  induction l with
  | nil =>
    rw [fwho_loop_nil] at h
    simp only [Except.ok.injEq, Option.some.injEq] at h
    exact h.symm
  | cons x rest ih =>
    rw [fwho_loop_cons] at h
    by_cases hwd : weekday d ∈ get_workweek_for_timezone x.2
    · rw [if_pos hwd, fwho_try_none_of (hall x (List.mem_cons_self x rest))] at h
      dsimp only [] at h
      exact ih (fun q hq => hall q (List.mem_cons_of_mem x hq)) h
    · rw [if_neg hwd] at h
      simp at h

/-- When no attendee has a constructible zone, a successful loop run equals
the naive fallback interval built from the first attendee. -/
lemma fwho_allnone {env : Env} {d h1 h2 : Int} {x : String × String}
    {xs : List (String × String)} {w : Int × Int}
    (hall : ∀ q ∈ x :: xs, env.off q.2 = none)
    (h : fwho_loop env d h1 h2 none (x :: xs) = .ok (some w)) :
    ∃ t1 t2, mkTimeMinutes h1 0 = .ok t1 ∧ mkTimeMinutes h2 0 = .ok t2 ∧
      w = (1440 * d + t1, 1440 * d + t2) := by
  rw [fwho_loop_cons] at h
  by_cases hwd : weekday d ∈ get_workweek_for_timezone x.2
  · rw [if_pos hwd, fwho_try_none_of (hall x (List.mem_cons_self x xs))] at h
    dsimp only [] at h
    rcases hnt : naiveTry d h1 h2 with u | iv <;> rw [hnt] at h <;> dsimp only [] at h
    · cases h
    · obtain ⟨t1, t2, ht1, ht2, hiv⟩ := naiveTry_ok hnt
      have hw := fwho_allnone_keep (fun q hq => hall q (List.mem_cons_of_mem x hq)) h
      exact ⟨t1, t2, ht1, ht2, by rw [hw, hiv]⟩
  · rw [if_neg hwd] at h
    simp at h

/-- Windows of the working-hours overlap on later dates start after earlier
windows end. -/
lemma fwho_order {env : Env} {att : List (String × String)} {d d2 h1 h2 ws we ws2 we2 : Int}
    (hdd : d + 1 ≤ d2)
    (ha : find_working_hours_overlap env att d h1 h2 = .ok (some (ws, we)))
    (hb : find_working_hours_overlap env att d2 h1 h2 = .ok (some (ws2, we2))) :
    we ≤ ws2 := by
  obtain ⟨hla, _⟩ := fwho_some_elim ha
  obtain ⟨hlb, _⟩ := fwho_some_elim hb
  rcases att with _ | ⟨x, xs⟩
  · rw [fwho_loop_nil] at hla
    simp at hla
  · obtain ⟨t1, t2, ht1, ht2⟩ := fwho_loop_first_valid hla
    obtain ⟨ha1, ha2, _, _, hte1⟩ := mkTime_ok ht1
    obtain ⟨hb1, hb2, _, _, hte2⟩ := mkTime_ok ht2
    by_cases hex : ∃ q ∈ x :: xs, (env.off q.2).isSome = true
    · obtain ⟨q, hq, hqs⟩ := hex
      obtain ⟨o, ho⟩ := Option.isSome_iff_exists.mp hqs
      have hba := fwho_loop_bound ht1 ht2 hq ho hla
      have hbb := fwho_loop_bound ht1 ht2 hq ho hlb
      omega
    · push_neg at hex
      have hall : ∀ q ∈ x :: xs, env.off q.2 = none := by
        intro q hq
        have hno := hex q hq
        cases hoq : env.off q.2 with
        | none => rfl
        | some o => rw [hoq] at hno; simp at hno
      obtain ⟨ta1, ta2, hta1, hta2, hwa⟩ := fwho_allnone hall hla
      obtain ⟨tb1, tb2, htb1, htb2, hwb⟩ := fwho_allnone hall hlb
      rw [hta1] at htb1
      rw [hta2] at htb2
      injection htb1 with hq1
      injection htb2 with hq2
      injection hwa with hwa1 hwa2
      injection hwb with hwb1 hwb2
      obtain ⟨_, _, _, _, he1⟩ := mkTime_ok hta1
      obtain ⟨_, _, _, _, he2⟩ := mkTime_ok hta2
      omega

/-- The preferred try block either fails on every date or produces the same
shifted base window on every date, a base at most 1439 minutes long. -/
lemma prefWindowTry_shape (env : Env) (a : Args) (att : List (String × String)) :
    (∀ dd, prefWindowTry env a att dd = none) ∨
    ∃ bs be, be - bs ≤ 1439 ∧
      ∀ dd, prefWindowTry env a att dd = some (1440 * dd + bs, 1440 * dd + be) := by
  rcases ho : env.off (lookupD att "primary" "UTC") with _ | offP
  · left
    intro dd
    unfold prefWindowTry
    rw [ho]
  · rcases hm1 : mkTimeMinutes (match a.preferred_time_start with
        | some p => p
        | none => (a.earliest_hour, 0)).1 (match a.preferred_time_start with
        | some p => p
        | none => (a.earliest_hour, 0)).2 with u1 | ts
    · left
      intro dd
      unfold prefWindowTry
      rw [ho]
      dsimp only []
      rw [hm1]
    · rcases hm2 : mkTimeMinutes (match a.preferred_time_end with
          | some p => p
          | none => (a.latest_hour, 0)).1 (match a.preferred_time_end with
          | some p => p
          | none => (a.latest_hour, 0)).2 with u2 | te
      · left
        intro dd
        unfold prefWindowTry
        rw [ho]
        dsimp only []
        rw [hm1, hm2]
      · right
        obtain ⟨_, _, _, _, he1⟩ := mkTime_ok hm1
        obtain ⟨hx1, hx2, hx3, hx4, he2⟩ := mkTime_ok hm2
        refine ⟨ts - offP, te - offP, by omega, ?_⟩
        intro dd
        unfold prefWindowTry
        rw [ho]
        dsimp only []
        rw [hm1, hm2]
        dsimp only []
        congr 1
        rw [Prod.mk.injEq]
        omega

/-- Fallback windows of later dates start after earlier ones end. -/
lemma fallback_order {env : Env} {a : Args} {att : List (String × String)}
    {d d2 ws we ws2 we2 : Int} (hdd : d + 1 ≤ d2)
    (h1 : fallbackWindow env a att d = .ok (some (ws, we)))
    (h2 : fallbackWindow env a att d2 = .ok (some (ws2, we2))) :
    we ≤ ws2 := by
  unfold fallbackWindow at h1 h2
  by_cases huse : a.use_attendee_timezones = true
  · rw [if_pos huse] at h1 h2
    exact fwho_order hdd h1 h2
  · rw [if_neg huse] at h1 h2
    rcases hm1 : mkTimeMinutes a.earliest_hour 0 with u1 | t1 <;>
      rcases hm2 : mkTimeMinutes a.latest_hour 0 with u2 | t2 <;>
        rw [hm1, hm2] at h1 h2 <;> dsimp only [] at h1 h2
    · cases h1
    · cases h1
    · cases h1
    · obtain ⟨hq1, hq2, _, _, he1⟩ := mkTime_ok hm1
      obtain ⟨hr1, hr2, _, _, he2⟩ := mkTime_ok hm2
      injection h1 with h1
      injection h2 with h2
      injection h1 with h1
      injection h2 with h2
      injection h1 with h1a h1b
      injection h2 with h2a h2b
      omega

/-- Day windows of later dates start after earlier ones end. -/
lemma dayWindow_order {env : Env} {a : Args} {att : List (String × String)}
    {d d2 ws we ws2 we2 : Int} (hdd : d + 1 ≤ d2)
    (h1 : dayWindow env a att d = .ok (some (ws, we)))
    (h2 : dayWindow env a att d2 = .ok (some (ws2, we2))) :
    we ≤ ws2 := by
  unfold dayWindow at h1 h2
  by_cases hsk1 : daySkipped a att (weekday d) = true
  · rw [if_pos hsk1] at h1
    simp at h1
  by_cases hsk2 : daySkipped a att (weekday d2) = true
  · rw [if_pos hsk2] at h2
    simp at h2
  rw [if_neg hsk1] at h1
  rw [if_neg hsk2] at h2
  by_cases hpref : a.preferred_time_start.isSome = true ∨ a.preferred_time_end.isSome = true
  · rw [if_pos hpref] at h1 h2
    rcases prefWindowTry_shape env a att with hnone | ⟨bs, be, hbd, hsh⟩
    · rw [hnone d] at h1
      rw [hnone d2] at h2
      dsimp only [] at h1 h2
      exact fallback_order hdd h1 h2
    · rw [hsh d] at h1
      rw [hsh d2] at h2
      dsimp only [] at h1 h2
      by_cases hlt : bs < be
      · rw [if_pos (by omega)] at h1
        rw [if_pos (by omega)] at h2
        simp only [Except.ok.injEq, Option.some.injEq, Prod.mk.injEq] at h1 h2
        omega
      · rw [if_neg (by omega)] at h1
        simp at h1
  · rw [if_neg hpref] at h1 h2
    exact fallback_order hdd h1 h2

/-- One processed day keeps the slot list sorted by start time and keeps
every slot inside the window of a day before the next scan date. -/
lemma processDay_inv {env : Env} {a : Args} {att : List (String × String)}
    {ab : List (String × List (Int × Int))} {d : Int} {acc acc2 : List (Int × Int)}
    (hpd : processDay env a att ab d acc = .ok acc2)
    (hp : acc.Pairwise (fun x y => x.1 < y.1))
    (hinv : ∀ s ∈ acc, ∃ d0 ws we, d0 < d ∧
      dayWindow env a att d0 = .ok (some (ws, we)) ∧ ws ≤ s.1 ∧ s.1 < we) :
    acc2.Pairwise (fun x y => x.1 < y.1) ∧
    ∀ s ∈ acc2, ∃ d0 ws we, d0 < d + 1 ∧
      dayWindow env a att d0 = .ok (some (ws, we)) ∧ ws ≤ s.1 ∧ s.1 < we := by
  unfold processDay at hpd
  split at hpd
  · cases hpd
  · injection hpd with hpd
    subst hpd
    refine ⟨hp, fun s hs => ?_⟩
    obtain ⟨d0, ws, we, hd0, hrest⟩ := hinv s hs
    exact ⟨d0, ws, we, by omega, hrest⟩
  next ds de hw =>
    split at hpd
    · cases hpd
    next c hip =>
      injection hpd with hpd
      subst hpd
      have hdsc := (initPosition_ok hip).1
      have hlt : ∀ x ∈ acc, x.1 < c := by
        intro x hx
        obtain ⟨d0, ws0, we0, hd0, hw0, _, hxwe⟩ := hinv x hx
        have := dayWindow_order (by omega) hw0 hw
        omega
      refine ⟨scan_pairwise hp hlt, fun s hs => ?_⟩
      rcases scan_mem hs with hin | ⟨hc1, hc2, _, _, _⟩
      · obtain ⟨d0, ws0, we0, hd0, hrest⟩ := hinv s hin
        exact ⟨d0, ws0, we0, by omega, hrest⟩
      · exact ⟨d, ds, de, by omega, hw, by omega, hc2⟩

/-- The day loop keeps the slot list sorted by start time. -/
lemma dayLoop_sorted {env : Env} {a : Args} {att : List (String × String)}
    {ab : List (String × List (Int × Int))} {endDay : Int} {fuel : Nat} {d : Int}
    {acc res : List (Int × Int)}
    (h : dayLoopAux env a att ab endDay fuel d acc = .ok res)
    (hp : acc.Pairwise (fun x y => x.1 < y.1))
    (hinv : ∀ s ∈ acc, ∃ d0 ws we, d0 < d ∧
      dayWindow env a att d0 = .ok (some (ws, we)) ∧ ws ≤ s.1 ∧ s.1 < we) :
    res.Pairwise (fun x y => x.1 < y.1) := by
  induction fuel generalizing d acc with
  | zero =>
    rw [dayLoopAux] at h
    injection h with h
    subst h
    exact hp
  | succ fuel ih =>
    rw [dayLoopAux] at h
    by_cases hg : d ≤ endDay ∧ (acc.length : Int) < a.max_suggestions
    · rw [if_pos hg] at h
      split at h
      · cases h
      next acc2 hpd =>
        obtain ⟨hp2, hinv2⟩ := processDay_inv hpd hp hinv
        exact ih h hp2 hinv2
    · rw [if_neg hg] at h
      injection h with h
      subst h
      exact hp

/-- C5: the returned slot list never exceeds max_suggestions and is
strictly ascending by start time; in particular the concrete request with
max_suggestions 1 over two free days returns exactly the one earliest
slot, from the earliest date scanned. -/
theorem c5_cap_and_order :
    (∀ (env : Env) (a : Args) (slots : List (Int × Int)), 0 ≤ a.max_suggestions →
      find_meeting_slots env a = .slots slots →
      (slots.length : Int) ≤ a.max_suggestions ∧
        slots.Pairwise (fun x y => x.1 < y.1)) ∧
    find_meeting_slots envC5 argsC5 = .slots [(29232540, 29232570)] := by
  constructor
  · intro env a slots hms hres
    unfold find_meeting_slots at hres
    rcases hfb : env.freebusy ("primary" :: a.attendees) with u | fb
    all_goals rw [hfb] at hres; dsimp only [] at hres
    · cases hres
    · split at hres
      · cases hres
      next slots2 hdl =>
        by_cases he : slots2 = []
        · rw [if_pos he] at hres; cases hres
        · rw [if_neg he] at hres
          injection hres with hres
          subst hres
          constructor
          · exact dayLoop_len hdl (by simpa using hms)
          · exact dayLoop_sorted hdl List.Pairwise.nil (by intro s hs; cases hs)
  · decide

/-- Witness for C5: the concrete one-suggestion request satisfies the cap
and the ordering. -/
theorem c5_cap_and_order_witness :
    (0 : Int) ≤ argsC5.max_suggestions ∧
    (([((29232540 : Int), (29232570 : Int))].length : Int) ≤ argsC5.max_suggestions ∧
      List.Pairwise (fun x y => x.1 < y.1) [((29232540 : Int), (29232570 : Int))]) := by
  refine ⟨by decide, ?_⟩
  exact c5_cap_and_order.1 envC5 argsC5 [(29232540, 29232570)] (by decide)
    c5_cap_and_order.2

/-- C7: the resolution chain is total and degrades silently.  A truthy
declared timezone is used; when the metadata lookup raises (swallowed to
None), returns None, or returns the falsy empty string, the chain moves to
the event inference, whose truthy answer is used; when that also yields
nothing, the result is the UTC default - never a propagated error. -/
theorem c7_resolution_total (env : Env) (cal : String) :
    (∀ tz, env.declaredTz cal = .ok (some tz) → tz ≠ "" → resolveTz env cal = tz) ∧
    ((env.declaredTz cal = .error () ∨ env.declaredTz cal = .ok none ∨
        env.declaredTz cal = .ok (some "")) →
      (∀ tz, infer_timezone_from_events env cal = some tz → tz ≠ "" →
        resolveTz env cal = tz) ∧
      ((infer_timezone_from_events env cal = none ∨
          infer_timezone_from_events env cal = some "") →
        resolveTz env cal = "UTC")) := by
  constructor
  · intro tz hd hne
    unfold resolveTz get_calendar_timezone
    rw [hd]
    dsimp only []
    unfold truthy
    dsimp only []
    rw [if_neg hne]
  · intro hd
    have hg : truthy (get_calendar_timezone env cal) = none := by
      unfold get_calendar_timezone
      rcases hd with h | h | h <;> rw [h] <;> rfl
    constructor
    · intro tz hi hne
      unfold resolveTz
      rw [hg, hi]
      dsimp only []
      unfold truthy
      dsimp only []
      rw [if_neg hne]
    · intro hi
      unfold resolveTz
      rw [hg]
      rcases hi with h | h <;> rw [h] <;> rfl

/-- Witness for C7: with a raising metadata lookup and a Tokyo-majority
event list, resolution still succeeds with the inferred zone. -/
theorem c7_resolution_total_witness :
    envC7.declaredTz "x@y" = .error () ∧
    infer_timezone_from_events envC7 "x@y" = some "Asia/Tokyo" ∧
    resolveTz envC7 "x@y" = "Asia/Tokyo" := by
  refine ⟨rfl, by decide, ?_⟩
  exact ((c7_resolution_total envC7 "x@y").2 (Or.inl rfl)).1 "Asia/Tokyo"
    (by decide) (by decide)

/-- find? returns the marked element when everything before it fails the
test and the element passes it. -/
lemma find?_first {α : Type} (P : α → Bool) (r : α) (L2 : List α) :
    ∀ L1 : List α, (∀ y ∈ L1, P y = false) → P r = true →
    (L1 ++ r :: L2).find? P = some r := by
  intro L1
  induction L1 with
  | nil =>
    intro _ hr
    simp [List.find?_cons, hr]
  | cons y ys ih =>
    intro h1 hr
    have hy := h1 y (List.mem_cons_self y ys)
    simp only [List.cons_append, List.find?_cons, hy]
    exact ih (fun z hz => h1 z (List.mem_cons_of_mem y hz)) hr

/-- The Python max fold returns the first element attaining the maximal
count: the list splits around the result, everything before it is strictly
smaller, and nothing is larger. -/
lemma foldl_maxStep_spec :
    ∀ (rest : List (String × Nat)) (p : String × Nat),
    ∃ L1 L2, p :: rest = L1 ++ (rest.foldl maxStep p) :: L2 ∧
      (∀ y ∈ L1, y.2 < (rest.foldl maxStep p).2) ∧
      (∀ x ∈ p :: rest, x.2 ≤ (rest.foldl maxStep p).2) := by
  intro rest
  induction rest with
  | nil =>
    intro p
    exact ⟨[], [], rfl, by simp, by simp⟩
  | cons q rest ih =>
    intro p
    by_cases hgt : q.2 > p.2
    · have hstep : maxStep p q = q := by
        unfold maxStep
        rw [if_pos hgt]
      simp only [List.foldl_cons, hstep]
      obtain ⟨L1, L2, hdec, hlt, hmax⟩ := ih q
      have hqr : q.2 ≤ (rest.foldl maxStep q).2 :=
        hmax q (List.mem_cons_self q rest)
      refine ⟨p :: L1, L2, ?_, ?_, ?_⟩
      · rw [List.cons_append, ← hdec]
      · intro y hy
        rcases List.mem_cons.mp hy with rfl | hy2
        · omega
        · exact hlt y hy2
      · intro x hx
        rcases List.mem_cons.mp hx with rfl | hx2
        · omega
        · exact hmax x hx2
    · have hstep : maxStep p q = p := by
        unfold maxStep
        rw [if_neg hgt]
      simp only [List.foldl_cons, hstep]
      obtain ⟨L1, L2, hdec, hlt, hmax⟩ := ih p
      cases L1 with
      | nil =>
        simp only [List.nil_append] at hdec
        have hpr : p = rest.foldl maxStep p := (List.cons.injEq _ _ _ _).mp hdec |>.1
        refine ⟨[], q :: L2, ?_, by simp, ?_⟩
        · simp only [List.nil_append]
          rw [← hpr]
          have hrest : rest = L2 := (List.cons.injEq _ _ _ _).mp hdec |>.2
          rw [hrest]
        · intro x hx
          rcases List.mem_cons.mp hx with rfl | hx2
          · exact hmax x (List.mem_cons_self x rest)
        
          · rcases List.mem_cons.mp hx2 with rfl | hx3
            · have := hmax p (List.mem_cons_self p rest)
              omega
            · exact hmax x (List.mem_cons_of_mem p hx3)
      | cons z zs =>
        simp only [List.cons_append] at hdec
        have hpz : p = z := (List.cons.injEq _ _ _ _).mp hdec |>.1
        have hrest : rest = zs ++ rest.foldl maxStep p :: L2 :=
          (List.cons.injEq _ _ _ _).mp hdec |>.2
        refine ⟨p :: q :: zs, L2, ?_, ?_, ?_⟩
        · simp only [List.cons_append]
          rw [← hrest]
        · intro y hy
          have hzlt : z.2 < (rest.foldl maxStep p).2 :=
            hlt z (List.mem_cons_self z zs)
          have hp2z : p.2 = z.2 := congrArg Prod.snd hpz
          rcases List.mem_cons.mp hy with rfl | hy2
          · omega
          · rcases List.mem_cons.mp hy2 with rfl | hy3
            · omega
            · exact hlt y (List.mem_cons_of_mem z hy3)
        · intro x hx
          rcases List.mem_cons.mp hx with rfl | hx2
          · exact hmax x (List.mem_cons_self x rest)
          · rcases List.mem_cons.mp hx2 with rfl | hx3
            · have := hmax p (List.mem_cons_self p rest)
              omega
            · exact hmax x (List.mem_cons_of_mem p hx3)

/-- The Python max over the counts equals the first entry whose count is
greater than or equal to every count in the list. -/
lemma maxByCount_eq_find (l : List (String × Nat)) :
    maxByCount l = l.find? (fun p => l.all (fun q => decide (q.2 ≤ p.2))) := by
  cases l with
  | nil => rfl
  | cons p rest =>
    obtain ⟨L1, L2, hdec, hlt, hmax⟩ := foldl_maxStep_spec rest p
    rw [maxByCount]
    rw [hdec] at hmax ⊢
    rw [find?_first _ _ _ L1 ?_ ?_]
    · intro y hy
      refine List.all_eq_false.mpr ⟨rest.foldl maxStep p, ?_, ?_⟩
      · exact List.mem_append_right L1 (List.mem_cons_self _ L2)
      · intro hc
        have hc2 := of_decide_eq_true hc
        have := hlt y hy
        omega
    · exact List.all_eq_true.mpr (fun q hq => decide_eq_true (hmax q hq))

/-- C8: when the scanned events yield a non-empty count table, the inferred
timezone is the first entry, in first-encounter order, whose count is
maximal - so ties go to the timezone seen first during the scan. -/
theorem c8_tie_first_seen (env : Env) (cal : String) (evs : List GEvent)
    (hev : env.eventsOf cal = .ok evs) (hne : evs ≠ []) :
    infer_timezone_from_events env cal =
      ((countTimezones evs).find? (fun p =>
        (countTimezones evs).all (fun q => decide (q.2 ≤ p.2)))).map Prod.fst := by
  unfold infer_timezone_from_events
  rw [hev]
  dsimp only []
  rw [if_neg hne, ← maxByCount_eq_find]
  cases maxByCount (countTimezones evs) <;> rfl

/-- Witness for C8: with zones A and B tied two against two and A first
encountered, the inference returns A. -/
theorem c8_tie_first_seen_witness :
    envC8.eventsOf "c@x" = .ok evsC8 ∧ evsC8 ≠ [] ∧
    infer_timezone_from_events envC8 "c@x" =
      ((countTimezones evsC8).find? (fun p =>
        (countTimezones evsC8).all (fun q => decide (q.2 ≤ p.2)))).map Prod.fst ∧
    infer_timezone_from_events envC8 "c@x" = some "A" ∧
    countTimezones evsC8 = [("A", 2), ("B", 2)] := by
  exact ⟨rfl, by decide, c8_tie_first_seen envC8 "c@x" evsC8 rfl (by decide),
    by decide, by decide⟩

/-- Counterexample for C9: with now exactly 14:00 on day 20300 and a range
starting the day before, the result contains slots that start in the past
(day 20299), and the current date is scanned from 14:30, skipping the
30-minute-aligned boundary 14:00 that lies at now - so the position is not
the next aligned boundary at or after now, and slots do start in the
past. -/
theorem c9_counterexample :
    find_meeting_slots envC9 argsC9 =
      .slots [(29231340, 29231370), (29231370, 29231400), (29231400, 29231430),
        (29231430, 29231460), (29232870, 29232900)] ∧
    envC9.now = 29232840 ∧
    (29231340 : Int) < 29232840 ∧
    (29232840 : Int) % 30 = 0 ∧
    ((29232840, 29232870) : Int × Int) ∉
      ([(29231340, 29231370), (29231370, 29231400), (29231400, 29231430),
        (29231430, 29231460), (29232870, 29232900)] : List (Int × Int)) := by
  exact ⟨by decide, rfl, by decide, by decide, by decide⟩

/-- C9 amended: the scan position is the window start except on the current
calendar date with the window start before now, where it becomes the next
30-minute-aligned boundary strictly after now (when now is exactly on a
boundary, the following boundary); consequently on the current date no
produced slot starts before now, while earlier dates scan from their
window start. -/
theorem c9_amended_scan_start :
    (∀ now nowDay d ds : Int, ¬ (d = nowDay ∧ ds < now) →
      initPosition now nowDay d ds = .ok ds) ∧
    (∀ now nowDay d ds c : Int, d = nowDay → ds < now →
      initPosition now nowDay d ds = .ok c →
      c % 30 = 0 ∧ now < c ∧ ∀ t : Int, t % 30 = 0 → now < t → c ≤ t) ∧
    (∀ (env : Env) (a : Args) (att : List (String × String))
        (ab : List (String × List (Int × Int))) (d : Int)
        (acc res : List (Int × Int)) (s : Int × Int),
      processDay env a att ab d acc = .ok res → s ∈ res →
      d = env.now / 1440 → s ∈ acc ∨ env.now ≤ s.1) := by
  refine ⟨?_, ?_, ?_⟩
  · intro now nowDay d ds hne
    unfold initPosition
    rw [if_neg hne]
  · intro now nowDay d ds c h1 h2 hok
    unfold initPosition at hok
    rw [if_pos ⟨h1, h2⟩] at hok
    dsimp only [] at hok
    by_cases hz : (now % 60 / 30 + 1) * 30 % 60 = 0
    · rw [if_pos hz] at hok
      by_cases hh : (now - now % 60 + (now % 60 / 30 + 1) * 30 % 60) / 60 % 24 = 23
      · rw [if_pos hh] at hok
        cases hok
      · rw [if_neg hh] at hok
        injection hok with hok
        refine ⟨by omega, by omega, ?_⟩
        intro t ht hnt
        omega
    · rw [if_neg hz] at hok
      injection hok with hok
      refine ⟨by omega, by omega, ?_⟩
      intro t ht hnt
      omega
  · intro env a att ab d acc res s hpd hs hd
    rcases processDay_mem hpd hs with hin | ⟨ws, we, c, hw, hip, hwsc, hcs, _, _, _⟩
    · exact Or.inl hin
    · right
      have h3 := initPosition_ok hip
      by_cases hcond : d = env.now / 1440 ∧ ws < env.now
      · have := h3.2.2 hcond
        omega
      · have hceq := h3.2.1 hcond
        have hnlt : ¬ ws < env.now := fun hx => hcond ⟨hd, hx⟩
        omega

/-- Witness for C9 amended: off the current date the position is the window
start; on the current date with start 13:00 before now 14:00 the position
is 14:30, the first aligned boundary strictly after now, bounded by the
15:00 boundary; and the one slot the current date produces does not start
before now. -/
theorem c9_amended_scan_start_witness :
    initPosition 29232840 20300 20299 29231340 = .ok 29231340 ∧
    ((29232870 : Int) % 30 = 0 ∧ (29232840 : Int) < 29232870) ∧
    (29232870 : Int) ≤ 29232900 ∧
    (((29232870, 29232900) : Int × Int) ∈ ([] : List (Int × Int)) ∨
      envC9.now ≤ 29232870) := by
  refine ⟨?_, ?_, ?_, ?_⟩
  · exact c9_amended_scan_start.1 29232840 20300 20299 29231340 (by decide)
  · have h := c9_amended_scan_start.2.1 29232840 20300 20300 29232780 29232870
      rfl (by decide) (by decide)
    exact ⟨h.1, h.2.1⟩
  · exact (c9_amended_scan_start.2.1 29232840 20300 20300 29232780 29232870
      rfl (by decide) (by decide)).2.2 29232900 (by decide) (by decide)
  · exact c9_amended_scan_start.2.2 envC9 argsC9 (attendeeTimezones envC9 argsC9)
      [("primary", []), ("a@x", [])] 20300 [] [(29232870, 29232900)]
      (29232870, 29232900) (by decide) (by decide) (by decide)
